import Mathlib

/-!
Shallow embedding of the extraction and normalization pipeline of the
`Econometrics_Project` repository (files `parser/parser_for_product_props.py`
and `parser/parser_products.py`), together with proofs about the embedded
functions.

Modelling conventions:
* A parsed markup document is a tree of `Tag` nodes; `Tag.text` holds the
  concatenated descendant text that BeautifulSoup's `.text` would return,
  and `Tag.attrs` the attribute list (with `class`, `style`, `itemprop`,
  `content`, `href`, `title` entries as needed).
* Python dictionaries are association lists with insertion order and
  last-assignment-wins semantics (`setk`, `updateAll`).
* Python floats are modelled as exact rationals `ℚ`; `float(...)` applied to
  a string is `pyFloat?`, which models CPython's parser on plain decimal
  literals (optional sign, digits, one decimal point, surrounding
  whitespace) — the fragment these parsers exercise.
* Python exceptions are modelled by `Except PyExc` where the control flow of
  the source makes them observable; `try/except` blocks that catch a listed
  set of exception types are modelled by matching on the error value.
* All definitions are structurally recursive so that concrete runs reduce
  inside the kernel.
-/

/-- The value space of one record field: text, a real number (modelled as an
exact rational), an integer, or Python `None`. -/
inductive FieldValue where
  | str (s : String)
  | real (q : ℚ)
  | int (n : ℤ)
  | none
deriving DecidableEq, Repr

/-- Python truthiness of the values the parsers store: a string is truthy iff
non-empty, a number iff nonzero, `None` is falsy. -/
def fvTruthy : FieldValue → Bool
  | .str s => s ≠ ""
  | .real q => q ≠ 0
  | .int n => n ≠ 0
  | .none => false

/-- The Python exception classes the source code can raise or catch. -/
inductive PyExc where
  | attributeError
  | typeError
  | keyError
  | valueError
deriving DecidableEq, Repr

/-! ### String primitives (modelled after the Python string operations) -/

/-- Whitespace for `str.strip` / `\s`: ASCII whitespace plus the no-break
space and narrow no-break space that appear in the site's number formats. -/
def isPyWs (c : Char) : Bool :=
  c = ' ' || c = '\t' || c = '\n' || c = '\r' || c = '\x0b' || c = '\x0c' ||
    c = '\u00A0' || c = '\u202F'

/-- `str.strip()`. -/
def pyStrip (s : String) : String :=
  String.mk (((s.data.dropWhile isPyWs).reverse.dropWhile isPyWs).reverse)

/-- Helper for `re.sub(r'\s+', ' ', s)`: the `Bool` records whether the
previous character was whitespace (so a run collapses to one space). -/
def collapseWsAux : Bool → List Char → List Char
  | _, [] => []
  | prevWs, c :: rest =>
    if isPyWs c then
      (if prevWs then collapseWsAux true rest else ' ' :: collapseWsAux true rest)
    else c :: collapseWsAux false rest

/-- `re.sub(r'\s+', ' ', s)`: every maximal whitespace run becomes one space. -/
def normSpace (s : String) : String :=
  String.mk (collapseWsAux false s.data)

/-- Replace every occurrence of the character `c` by `rep`.  Models
`str.replace` for one-character patterns, the only patterns the source
uses (`'₽'`, `' '`, `' '`, `','`). -/
def replaceCharL (c : Char) (rep : List Char) : List Char → List Char
  | [] => []
  | d :: rest =>
    if d = c then rep ++ replaceCharL c rep rest else d :: replaceCharL c rep rest

/-- `s.replace(c, rep)` for a one-character pattern `c`. -/
def pyReplace (s : String) (c : Char) (rep : String) : String :=
  String.mk (replaceCharL c rep.data s.data)

/-- Substring test on character lists (Python's `sub in s`). -/
def containsSubL (sub : List Char) : List Char → Bool
  | [] => sub.isEmpty
  | d :: rest => sub.isPrefixOf (d :: rest) || containsSubL sub rest

/-- Python's `sub in s` substring test. -/
def strContains (s sub : String) : Bool :=
  containsSubL sub.data s.data

/-- `str.lower` on the alphabets this site uses: ASCII letters and the
Russian Cyrillic range (А–Я plus Ё). -/
def pyLowerChar (c : Char) : Char :=
  if 'A' ≤ c ∧ c ≤ 'Z' then Char.ofNat (c.toNat + 32)
  else if 'А' ≤ c ∧ c ≤ 'Я' then Char.ofNat (c.toNat + 32)
  else if c = 'Ё' then 'ё'
  else c

/-- `str.lower()`. -/
def pyLower (s : String) : String :=
  String.mk (s.data.map pyLowerChar)

/-- Numeric value of a list of decimal digit characters. -/
def digitsVal (l : List Char) : ℕ :=
  l.foldl (fun a c => a * 10 + (c.toNat - 48)) 0

/-- Helper for `re.findall(r'\d+', s)`: `cur` is the current digit run,
reversed. -/
def digitRunsAux (cur : List Char) : List Char → List (List Char)
  | [] => if cur.isEmpty then [] else [cur.reverse]
  | c :: rest =>
    if c.isDigit then digitRunsAux (c :: cur) rest
    else if cur.isEmpty then digitRunsAux [] rest
    else cur.reverse :: digitRunsAux [] rest

/-- `re.findall(r'\d+', s)`: the maximal runs of decimal digits, in order. -/
def digitRuns (s : String) : List (List Char) :=
  digitRunsAux [] s.data

/-- Magnitude part of CPython's `float(string)` on plain decimal literals:
digits with at most one decimal point, at least one digit overall. -/
def pyFloatMag (l : List Char) : Option ℚ :=
  let ip := l.takeWhile Char.isDigit
  match l.dropWhile Char.isDigit with
  | [] => if ip.isEmpty then Option.none else some (mkRat (digitsVal ip) 1)
  | '.' :: fp =>
    if fp.all Char.isDigit && !(ip.isEmpty && fp.isEmpty) then
      some (mkRat (digitsVal (ip ++ fp)) (10 ^ fp.length))
    else Option.none
  | _ => Option.none

/-- `float(s)` on the decimal-literal fragment: strip surrounding whitespace,
an optional sign, then a digit string with at most one point.  Returns
`none` where Python raises `ValueError`. -/
def pyFloat? (s : String) : Option ℚ :=
  match (pyStrip s).data with
  | '+' :: r => pyFloatMag r
  | '-' :: r => (pyFloatMag r).map (fun q => -q)
  | r => pyFloatMag r

/-- Python's `round` on an exact rational: nearest integer, ties to even
(CPython's banker's rounding), computed from numerator and denominator. -/
def pyRound (q : ℚ) : ℤ :=
  let f := Int.fdiv q.num q.den
  let r2 := 2 * (q.num - f * q.den)
  if r2 < (q.den : ℤ) then f
  else if (q.den : ℤ) < r2 then f + 1
  else if f % 2 = 0 then f else f + 1

/-! ### The document tree -/

mutual
/-- One markup element: element name, attributes, the concatenated descendant
text (what BeautifulSoup's `.text` returns), and child elements. -/
inductive Tag where
  | mk (tagName : String) (attrs : List (String × String)) (text : String)
       (children : TagList)
/-- Children of a `Tag` (a specialised list so that all tree recursions are
structural). -/
inductive TagList where
  | nil
  | cons (t : Tag) (ts : TagList)
end

/-- Build a `TagList` from a `List Tag`. -/
def tl : List Tag → TagList
  | [] => .nil
  | t :: ts => .cons t (tl ts)

def Tag.tagName : Tag → String
  | .mk n _ _ _ => n

def Tag.attrs : Tag → List (String × String)
  | .mk _ a _ _ => a

def Tag.text : Tag → String
  | .mk _ _ tx _ => tx

def Tag.children : Tag → TagList
  | .mk _ _ _ cs => cs

/-- First value bound to a key in an association list (used for attribute
lookup and for dictionary lookup). -/
def alookup {α : Type} (k : String) : List (String × α) → Option α
  | [] => Option.none
  | p :: rest => if p.1 = k then some p.2 else alookup k rest

/-- `tag.attrs.get(k)` — `None` when the attribute is missing. -/
def Tag.attr? (t : Tag) (k : String) : Option String :=
  alookup k t.attrs

/-- `tag.get(k, d)` — attribute lookup with a default. -/
def Tag.attrOr (t : Tag) (k : String) (d : String) : String :=
  (t.attr? k).getD d

/-- Whitespace-split helper for the multi-valued `class` attribute. -/
def splitWsAux (cur : List Char) : List Char → List String
  | [] => if cur.isEmpty then [] else [String.mk cur.reverse]
  | c :: rest =>
    if isPyWs c then
      (if cur.isEmpty then splitWsAux [] rest
       else String.mk cur.reverse :: splitWsAux [] rest)
    else splitWsAux (c :: cur) rest

/-- The class tokens of a tag (BeautifulSoup treats `class` as multi-valued,
split on whitespace). -/
def Tag.classes (t : Tag) : List String :=
  splitWsAux [] (t.attrOr "class" "").data

/-- `class_='c'` matching: the token `c` is among the tag's classes. -/
def Tag.hasClass (t : Tag) (c : String) : Bool :=
  t.classes.contains c

mutual
/-- All descendants of a tag in document (pre-)order — the search space of
BeautifulSoup's `find_all` / `find`. -/
def descTag : Tag → List Tag
  | .mk _ _ _ cs => descTags cs
def descTags : TagList → List Tag
  | .nil => []
  | .cons t ts => t :: (descTag t ++ descTags ts)
end

/-- `tag.find_all(pred)`: all descendants matching, in document order. -/
def Tag.findAll (t : Tag) (p : Tag → Bool) : List Tag :=
  (descTag t).filter p

/-- `tag.find(pred)`: first matching descendant or `None`. -/
def Tag.findTag (t : Tag) (p : Tag → Bool) : Option Tag :=
  (t.findAll p).head?

mutual
/-- First descendant matching `p` (document order) together with the list of
its following siblings — the data `find` + `find_next_sibling` needs. -/
def findSibT (p : Tag → Bool) : Tag → Option (Tag × TagList)
  | .mk _ _ _ cs => findSibL p cs
def findSibL (p : Tag → Bool) : TagList → Option (Tag × TagList)
  | .nil => Option.none
  | .cons t ts =>
    if p t then some (t, ts)
    else
      match findSibT p t with
      | some r => some r
      | Option.none => findSibL p ts
end

/-- `x.find_next_sibling(pred)` given the following siblings of `x`. -/
def nextSibMatching (p : Tag → Bool) : TagList → Option Tag
  | .nil => Option.none
  | .cons t ts => if p t then some t else nextSibMatching p ts

/-! ### Python dictionaries -/

/-- A Python dict with `String` keys: an insertion-ordered association list
in which every key occurs at most once. -/
abbrev PyDict := List (String × FieldValue)

/-- `d[k] = v`: overwrite in place when the key exists, else append. -/
def setk {α : Type} (d : List (String × α)) (k : String) (v : α) :
    List (String × α) :=
  if d.any (fun p => p.1 = k) then
    d.map (fun p => if p.1 = k then (k, v) else p)
  else d ++ [(k, v)]

/-- `d.update(e)`: assign every binding of `e` into `d`, in order. -/
def updateAll {α : Type} (d e : List (String × α)) : List (String × α) :=
  e.foldl (fun acc p => setk acc p.1 p.2) d

/-- The keys of a dict, in insertion order. -/
def dkeys {α : Type} (d : List (String × α)) : List String :=
  d.map Prod.fst

/-- Left-biased choice on options (used to state merge precedence). -/
def oelse {α : Type} : Option α → Option α → Option α
  | some v, _ => some v
  | Option.none, y => y


/-! ### `parser_for_product_props.py`: the detail-page extractors -/

/-- `find('span', style=lambda s: s and sub in s)`: a span whose inline style
exists, is non-empty, and contains the marker substring. -/
def styledSpanP (sub : String) (t : Tag) : Bool :=
  t.tagName = "span" &&
    (match t.attr? "style" with
     | some s => s ≠ "" && strContains s sub
     | Option.none => false)

/-- `find('span', itemprop=v)`. -/
def itempropSpanP (v : String) (t : Tag) : Bool :=
  t.tagName = "span" && t.attr? "itemprop" = some v

/-- `find('meta', {'itemprop': 'value'})`. -/
def metaValueP (t : Tag) : Bool :=
  t.tagName = "meta" && t.attr? "itemprop" = some "value"

/-- `find(name, class_=cl)`. -/
def classP (nm cl : String) (t : Tag) : Bool :=
  t.tagName = nm && t.hasClass cl

/-- One characteristics row: `div.product-details-parameters-list__item`. -/
def charItemP (t : Tag) : Bool :=
  classP "div" "product-details-parameters-list__item" t

/-- The characteristic name of one item: text of the secondary-styled span,
whitespace-collapsed, stripped, then with commas removed and stripped again;
`none` when the span is missing (the item is skipped). -/
def charName (item : Tag) : Option String :=
  match item.findTag (styledSpanP "--pl-text-secondary") with
  | Option.none => Option.none
  | some ns =>
    some (pyStrip (pyReplace (pyStrip (normSpace ns.text)) ',' ""))

/-- The characteristic value of one item: the ordered fallback chain of
`parse_characteristics` — brand span, manufacturer span, weight span, the
`meta[itemprop=value]` content attribute, then the primary-styled span
(empty string when even that is missing). -/
def chosenValue (item : Tag) : String :=
  match item.findTag (itempropSpanP "brand") with
  | some b => pyStrip b.text
  | Option.none =>
    match item.findTag (itempropSpanP "manufacturer") with
    | some m => pyStrip m.text
    | Option.none =>
      match item.findTag (itempropSpanP "weight") with
      | some w => pyStrip w.text
      | Option.none =>
        match item.findTag metaValueP with
        | some mv => pyStrip (mv.attrOr "content" "")
        | Option.none =>
          match item.findTag (styledSpanP "--pl-text-primary") with
          | some vs => pyStrip vs.text
          | Option.none => ""

/-- The fixed keyword set of the numeric-coercion rule. -/
def charKeywords : List String := ["вес", "содержание", "температура", "срок"]

/-- `any(keyword in name.lower() for keyword in [...])`. -/
def hasKeyword (name : String) : Bool :=
  charKeywords.any (fun kw => strContains (pyLower name) kw)

/-- The keyword-driven numeric coercion of `parse_characteristics`: when the
lowered name contains a keyword, replace commas by points and parse as a
real; a failed parse silently keeps the original string. -/
def coerceNumeric (name value : String) : FieldValue :=
  if hasKeyword name then
    match pyFloat? (pyReplace value ',' ".") with
    | some q => FieldValue.real q
    | Option.none => FieldValue.str value
  else FieldValue.str value

/-- The name-synonym table of `parse_characteristics`. -/
def nameMapping (n : String) : String :=
  if n = "Вес кг" then "Вес (кг)"
  else if n = "Содержание какао %" then "Какао (%)"
  else if n = "Тип продукта" then "Тип"
  else if n = "Вид шоколада" then "Тип шоколада"
  else if n = "Тип упаковки" then "Упаковка"
  else n

/-- Processing of one characteristics item: `none` means the item is skipped
(no name span, or the final `if name and value:` test fails). -/
def processCharItem (item : Tag) : Option (String × FieldValue) :=
  match charName item with
  | Option.none => Option.none
  | some name =>
    let value := coerceNumeric name (chosenValue item)
    let mappedName := nameMapping name
    if mappedName ≠ "" ∧ fvTruthy value then some (mappedName, value) else Option.none

/-- The accumulation loop shared by `parse_characteristics` and
`parse_nutrition`: process each item and assign the produced binding,
skipping items that yield nothing. -/
def insOpt {α : Type} (acc : List (String × α)) :
    Option (String × α) → List (String × α)
  | some kv => setk acc kv.1 kv.2
  | Option.none => acc

def foldInsert {α : Type} (f : Tag → Option (String × α)) (items : List Tag)
    (d : List (String × α)) : List (String × α) :=
  items.foldl (fun acc it => insOpt acc (f it)) d

/-- `parse_characteristics`: fold the per-item results into a dict. -/
def parse_characteristics (soup : Tag) : PyDict :=
  foldInsert processCharItem (soup.findAll charItemP) []

/-- The seven fixed keys of the offer dict, in literal order. -/
def offerKeys : List String :=
  ["Название", "Текущая цена", "Старая цена", "Скидка", "Рейтинг",
   "Количество оценок", "Количество отзывов"]

/-- The initial offer dict: every key bound to `None`. -/
def offerInit : PyDict := offerKeys.map (fun k => (k, FieldValue.none))

/-- The price cleaning inside `parse_offer`:
`price.replace('₽', '').replace(' ', '').replace(' ', '')`. -/
def stripPrice (s : String) : String :=
  pyReplace (pyReplace (pyReplace s '₽' "") ' ' "") ' ' ""

/-- One `try: d[k] = ... except: pass` step: assign when the extraction
succeeded, keep the dict unchanged when it raised. -/
def trySet (d : PyDict) (k : String) : Option FieldValue → PyDict
  | some v => setk d k v
  | Option.none => d

/-- The rating `try` block of `parse_offer`.  Its partial effects mirror the
source: the score is assigned first, so a missing count element (an
`AttributeError` raised afterwards and caught) keeps the assigned score;
fewer than two digit runs leave both counts at `None`. -/
def ratingUpdate (sec : Tag) (d : PyDict) : PyDict :=
  match sec.findTag (classP "div" "product-rating") with
  | Option.none => d
  | some rb =>
    match rb.findTag (classP "span" "product-rating-score") with
    | Option.none => d
    | some sc =>
      match pyFloat? (pyStrip sc.text) with
      | Option.none => d
      | some q =>
        let d5 := setk d "Рейтинг" (.real q)
        match rb.findTag (classP "div" "product-rating-count") with
        | Option.none => d5
        | some cd =>
          match (digitRuns cd.text).map (fun r => (digitsVal r : ℤ)) with
          | n1 :: n2 :: _ =>
            setk (setk d5 "Количество оценок" (.int n1)) "Количество отзывов" (.int n2)
          | _ => d5

/-- `parse_offer`: five independent `try` blocks, each leaving its fields at
`None` when an element is missing or a parse fails. -/
def parse_offer (sec : Tag) : PyDict :=
  let d1 := trySet offerInit "Название"
    ((sec.findTag (classP "span" "product-details-offer__title")).map
      (fun t => .str (pyStrip t.text)))
  let d2 := trySet d1 "Текущая цена"
    ((sec.findTag (classP "span" "product-details-price__current")).bind
      (fun t => (pyFloat? (stripPrice t.text)).map FieldValue.real))
  let d3 := trySet d2 "Старая цена"
    ((sec.findTag (classP "span" "product-details-price__old")).bind
      (fun t => (pyFloat? (stripPrice t.text)).map FieldValue.real))
  let d4 := trySet d3 "Скидка"
    ((sec.findTag (classP "div" "pl-label_discount")).map
      (fun t => .str (pyStrip t.text)))
  ratingUpdate sec d4

/-- The value coercion of `parse_nutrition`: keep only digits and the point;
empty → skip; with a point → parse as real (a failed parse skips the item);
otherwise parse as integer. -/
def nutClean (value : String) : List Char :=
  value.data.filter (fun c => c.isDigit || c = '.')

def nutValue (value : String) : Option FieldValue :=
  let cv := nutClean value
  if cv.isEmpty then Option.none
  else if cv.contains '.' then
    match pyFloat? (String.mk cv) with
    | some q => some (.real q)
    | Option.none => Option.none
  else some (.int (digitsVal cv))

/-- One nutrition list item: title element, its next sibling `div.pl-text`,
and the coerced value.  `get_text(strip=True)` is modelled by stripping the
element text. -/
def processNutItem (item : Tag) : Option (String × FieldValue) :=
  match findSibT (classP "div" "product-details-nutrition-facts__list-item__title") item with
  | Option.none => Option.none
  | some (nameTag, sibs) =>
    let name := pyStrip nameTag.text
    match nextSibMatching (classP "div" "pl-text") sibs with
    | Option.none => Option.none
    | some vt =>
      match nutValue (pyStrip vt.text) with
      | some v => some (name, v)
      | Option.none => Option.none

/-- `parse_nutrition`: empty dict when the list container is missing, else a
fold over the list items. -/
def parse_nutrition (sec : Tag) : PyDict :=
  match sec.findTag (classP "div" "product-details-nutrition-facts__list") with
  | Option.none => []
  | some lc =>
    foldInsert processNutItem
      (lc.findAll (classP "div" "product-details-nutrition-facts__list-item")) []

/-- `parse_additional_info`: the texts of all `p` children of the
`marked-text` block joined by single spaces, defaulting to `''`. -/
def parse_additional_info (sec : Tag) : PyDict :=
  match sec.findTag (classP "div" "marked-text") with
  | Option.none => [("Состав", FieldValue.str "")]
  | some mt =>
    let paragraphs := (mt.findAll (fun t => t.tagName = "p")).map (fun p => pyStrip p.text)
    if paragraphs.isEmpty then [("Состав", FieldValue.str "")]
    else [("Состав", FieldValue.str (String.intercalate " " paragraphs))]

/-- A tag with nothing in it (used as the default for list indexing that the
source never performs out of range). -/
def emptyTag : Tag := .mk "" [] "" .nil

/-- `parse_all_sections`: run the four extractors on `sections[0..3]` and
merge the results into one dict in the order characteristics → offer →
nutrition → composition.  The only caller passes exactly four subtrees. -/
def parse_all_sections (sections : List Tag) : PyDict :=
  let params := parse_characteristics (sections.getD 0 emptyTag)
  let offer := parse_offer (sections.getD 1 emptyTag)
  let nutrition := parse_nutrition (sections.getD 2 emptyTag)
  let additional_info := parse_additional_info (sections.getD 3 emptyTag)
  updateAll (updateAll (updateAll (updateAll [] params) offer) nutrition) additional_info

/-- The per-product body of `main`'s loop: the all-or-nothing section gate,
then the caller-attached identity fields `Ссылка` and `Артикул`. -/
def processRow (det inf nutr sostav : List Tag) (link productId : String) : PyDict :=
  let has_all_sections :=
    !det.isEmpty && !inf.isEmpty && !nutr.isEmpty && !sostav.isEmpty
  let product_data :=
    if has_all_sections then
      parse_all_sections
        [det.headD emptyTag, inf.headD emptyTag, nutr.headD emptyTag, sostav.headD emptyTag]
    else []
  setk (setk product_data "Ссылка" (FieldValue.str link)) "Артикул" (FieldValue.str productId)

/-! ### `parser_products.py`: the catalog-preview extractor -/

/-- `clean_price`:
`float(price_str.replace(' ', '').replace('₽', '').replace(',', '.'))`, with
`ValueError`/`AttributeError` turned into `None`. -/
def clean_price (price_str : String) : Option ℚ :=
  pyFloat? (pyReplace (pyReplace (pyReplace price_str ' ' "") '₽' "") ',' ".")

/-- `float(s)` with the exception made explicit. -/
def floatE (s : String) : Except PyExc ℚ :=
  match pyFloat? s with
  | some q => Except.ok q
  | Option.none => Except.error PyExc.valueError

/-- `clean_price` with its exception flow explicit: the `try` body may raise
`ValueError`, and the `except (ValueError, AttributeError)` clause turns it
into `None`. -/
def clean_priceE (s : String) : Except PyExc (Option ℚ) :=
  match floatE (pyReplace (pyReplace (pyReplace s ' ' "") '₽' "") ',' ".") with
  | Except.ok q => Except.ok (some q)
  | Except.error e =>
    if e = PyExc.valueError ∨ e = PyExc.attributeError then Except.ok Option.none
    else Except.error e

/-- The derived-discount computation of `extract_product_data`: requires both
price strings non-empty, both parsing, and both truthy (nonzero), and then
rounds `(1 - new/old) * 100`. -/
def discountOf (regular sale : String) : Option ℤ :=
  if regular ≠ "" ∧ sale ≠ "" then
    match clean_price regular, clean_price sale with
    | some o, some n =>
      if o ≠ 0 ∧ n ≠ 0 then some (pyRound ((1 - n / o) * 100)) else Option.none
    | _, _ => Option.none
  else Option.none

def BASE_URL : String := "https://magnit.ru"

/-- Models `urllib.parse.urljoin` on the hrefs this site serves: absolute
URLs pass through, root-relative paths resolve against the base origin. -/
def urljoin (base url : String) : String :=
  if "http".data.isPrefixOf url.data then url else base ++ url

/-- The ten fixed keys of the catalog-preview record, in literal order. -/
def productKeys : List String :=
  ["title", "link", "description", "regular_price", "sale_price", "discount",
   "sale_period", "favorite", "labels", "badges"]

/-- The initial preview record: every key bound to `''`. -/
def productInit : PyDict := productKeys.map (fun k => (k, FieldValue.str ""))

/-- The link/title block of `extract_product_data`.  A missing anchor makes
`link_tag['href']` raise `TypeError`, which the `except` clause catches; an
anchor without an `href` attribute raises `KeyError`, which it does not. -/
def linkBlock (card : Tag) (d : PyDict) : Except PyExc PyDict :=
  match card.findTag (classP "a" "pl-hover-base") with
  | Option.none => Except.ok d
  | some lt =>
    match lt.attr? "href" with
    | Option.none => Except.error PyExc.keyError
    | some h =>
      Except.ok (setk (setk d "link" (FieldValue.str (urljoin BASE_URL h)))
        "title" (FieldValue.str (lt.attrOr "title" "")))

/-- The description block (missing element → `AttributeError`, caught). -/
def descriptionBlock (card : Tag) (d : PyDict) : PyDict :=
  match card.findTag (classP "div" "unit-catalog-product-preview-description") with
  | some t => setk d "description" (FieldValue.str (pyStrip t.text))
  | Option.none => d

/-- The prices block: the regular price is assigned before the sale price is
looked up, so a missing sale element keeps the already-assigned regular
price (the raised `AttributeError` is caught after the assignment). -/
def pricesBlock (card : Tag) (d : PyDict) : PyDict :=
  match card.findTag (classP "div" "unit-catalog-product-preview-prices") with
  | Option.none => d
  | some pr =>
    match pr.findTag (classP "div" "unit-catalog-product-preview-prices__regular") with
    | Option.none => d
    | some rt =>
      let rs := pyStrip rt.text
      let d1 := setk d "regular_price" (FieldValue.str rs)
      match pr.findTag (classP "div" "unit-catalog-product-preview-prices__sale") with
      | Option.none => d1
      | some st =>
        let ss := pyStrip st.text
        let d2 := setk d1 "sale_price" (FieldValue.str ss)
        match discountOf rs ss with
        | some disc => setk d2 "discount" (FieldValue.int disc)
        | Option.none => d2

/-- The favorites block. -/
def favoriteBlock (card : Tag) (d : PyDict) : PyDict :=
  match card.findTag (classP "div" "unit-catalog-product-preview-favorite") with
  | some t => setk d "favorite" (FieldValue.str (pyStrip t.text))
  | Option.none => d

/-- The labels block. -/
def labelsBlock (card : Tag) (d : PyDict) : PyDict :=
  match card.findTag (classP "div" "unit-catalog-product-preview-labels") with
  | some t => setk d "labels" (FieldValue.str (pyStrip t.text))
  | Option.none => d

/-- The badges block: the stripped badge texts joined by `'; '`. -/
def badgesBlock (card : Tag) (d : PyDict) : PyDict :=
  match card.findTag (classP "div" "unit-catalog-product-preview-labels__badges") with
  | Option.none => d
  | some bd =>
    setk d "badges" (FieldValue.str (String.intercalate "; "
      ((bd.findAll (classP "div" "unit-catalog-product-preview-labels__badges-item")).map
        (fun b => pyStrip b.text))))

/-- `extract_product_data` with its exception flow explicit: only the link
block can leak an exception (`KeyError`); every other block catches what its
body can raise. -/
def extract_product_dataE (card : Tag) : Except PyExc PyDict :=
  match linkBlock card productInit with
  | Except.error e => Except.error e
  | Except.ok d1 =>
    Except.ok (badgesBlock card (labelsBlock card (favoriteBlock card
      (pricesBlock card (descriptionBlock card d1)))))

/-! ### Sample documents used by concrete evaluations -/

/-- A characteristics item with a secondary-styled name span and a
primary-styled value span. -/
def sampleCharItem (n v : String) : Tag :=
  Tag.mk "div" [("class", "product-details-parameters-list__item")] "" (tl
    [Tag.mk "span" [("style", "color: var(--pl-text-secondary);")] n .nil,
     Tag.mk "span" [("style", "color: var(--pl-text-primary);")] v .nil])

/-- A parameters section wrapping the given items. -/
def sampleSection (items : List Tag) : Tag :=
  Tag.mk "section" [("class", "product-details-parameters-list")] "" (tl items)

/-- An item that exposes both a brand marker and a machine-readable meta
value (the fallback-order test case). -/
def sampleBrandItem : Tag :=
  Tag.mk "div" [("class", "product-details-parameters-list__item")] "" (tl
    [Tag.mk "span" [("style", "color: var(--pl-text-secondary);")] "Бренд" .nil,
     Tag.mk "span" [("itemprop", "brand")] "Milka" .nil,
     Tag.mk "meta" [("itemprop", "value"), ("content", "Другое")] "" .nil])

/-- An offer section holding one current-price span with the given text. -/
def sampleOfferSec (price : String) : Tag :=
  Tag.mk "section" [("class", "product-details-offer")] "" (tl
    [Tag.mk "span" [("class", "product-details-price__current")] price .nil])

/-- A catalog card whose link anchor has no `href` attribute. -/
def sampleCardNoHref : Tag :=
  Tag.mk "article" [("class", "unit-catalog-product-preview")] "" (tl
    [Tag.mk "a" [("class", "pl-hover-base")] "" .nil])

/-! ### Dictionary lemmas -/

theorem oelse_none_right {α : Type} (x : Option α) : oelse x Option.none = x := by
  cases x <;> rfl

theorem alookup_cons {α : Type} (p : String × α) (l : List (String × α)) (q : String) :
    alookup q (p :: l) = if p.1 = q then some p.2 else alookup q l := rfl

theorem dkeys_cons {α : Type} (p : String × α) (l : List (String × α)) :
    dkeys (p :: l) = p.1 :: dkeys l := rfl

theorem alookup_append {α : Type} (d e : List (String × α)) (q : String) :
    alookup q (d ++ e) = oelse (alookup q d) (alookup q e) := by
  induction d with
  | nil => rfl
  | cons p rest ih =>
    rw [List.cons_append, alookup_cons, alookup_cons]
    by_cases h : p.1 = q
    · rw [if_pos h, if_pos h]
      rfl
    · rw [if_neg h, if_neg h, ih]

theorem alookup_none_iff {α : Type} (d : List (String × α)) (q : String) :
    alookup q d = Option.none ↔ d.any (fun p => p.1 = q) = false := by
  induction d with
  | nil => simp [alookup]
  | cons p rest ih =>
    rw [alookup_cons, List.any_cons]
    by_cases h : p.1 = q
    · simp [h]
    · simp [h, ih]

theorem mem_dkeys_iff_any {α : Type} (d : List (String × α)) (q : String) :
    q ∈ dkeys d ↔ d.any (fun p => p.1 = q) = true := by
  induction d with
  | nil => simp [dkeys]
  | cons p rest ih =>
    rw [dkeys_cons, List.mem_cons, List.any_cons]
    by_cases h : p.1 = q
    · simp [h, eq_comm]
    · simp only [Bool.or_eq_true, decide_eq_true_eq, ih]
      constructor
      · rintro (he | hm)
        · exact absurd he.symm h
        · exact Or.inr hm
      · rintro (he | hm)
        · exact absurd he h
        · exact Or.inr hm

theorem isSome_alookup_iff {α : Type} (d : List (String × α)) (q : String) :
    (alookup q d).isSome = true ↔ q ∈ dkeys d := by
  induction d with
  | nil => simp [alookup, dkeys]
  | cons p rest ih =>
    rw [alookup_cons, dkeys_cons, List.mem_cons]
    by_cases h : p.1 = q
    · simp [h, eq_comm]
    · simp only [if_neg h, ih]
      constructor
      · exact fun hm => Or.inr hm
      · rintro (he | hm)
        · exact absurd he.symm h
        · exact hm

theorem alookup_map_ne {α : Type} (d : List (String × α)) (k q : String) (v : α)
    (h : k ≠ q) :
    alookup q (d.map (fun p => if p.1 = k then (k, v) else p)) = alookup q d := by
  induction d with
  | nil => rfl
  | cons p rest ih =>
    rw [List.map_cons, alookup_cons, alookup_cons]
    by_cases hp : p.1 = k
    · have hpq : p.1 ≠ q := fun he => h (hp.symm.trans he)
      rw [if_pos hp]
      show (if k = q then some v else _) = _
      rw [if_neg h, if_neg hpq, ih]
    · rw [if_neg hp, ih]

theorem alookup_map_set {α : Type} (d : List (String × α)) (k q : String) (v : α)
    (hany : d.any (fun p => p.1 = k) = true) :
    alookup q (d.map (fun p => if p.1 = k then (k, v) else p)) =
      if k = q then some v else alookup q d := by
  induction d with
  | nil => simp at hany
  | cons p rest ih =>
    rw [List.map_cons, alookup_cons, alookup_cons]
    by_cases hp : p.1 = k
    · rw [if_pos hp]
      show (if k = q then some v else _) = _
      by_cases hkq : k = q
      · rw [if_pos hkq, if_pos hkq]
      · have hpq : p.1 ≠ q := fun he => hkq (hp.symm.trans he)
        rw [if_neg hkq, if_neg hkq, if_neg hpq, alookup_map_ne rest k q v hkq]
    · have hrest : rest.any (fun p => p.1 = k) = true := by
        rw [List.any_cons] at hany
        rcases Bool.or_eq_true_iff.mp hany with he | hr
        · exact absurd (of_decide_eq_true he) hp
        · exact hr
      rw [if_neg hp]
      by_cases hpq : p.1 = q
      · have hkq : k ≠ q := fun he => hp (hpq.trans he.symm)
        rw [if_pos hpq, if_neg hkq, if_pos hpq]
      · rw [if_neg hpq, if_neg hpq, ih hrest]

theorem alookup_setk {α : Type} (d : List (String × α)) (k q : String) (v : α) :
    alookup q (setk d k v) = if k = q then some v else alookup q d := by
  unfold setk
  rcases hany : d.any (fun p => p.1 = k) with _ | _
  · simp only [Bool.false_eq_true, if_false]
    rw [alookup_append]
    by_cases hkq : k = q
    · have hnone : alookup q d = Option.none := by
        rw [alookup_none_iff, ← hkq]
        exact hany
      rw [hnone, if_pos hkq, alookup_cons]
      show oelse Option.none (if k = q then some v else _) = some v
      rw [if_pos hkq]
      rfl
    · rw [if_neg hkq, alookup_cons]
      show oelse (alookup q d) (if k = q then some v else alookup q []) = alookup q d
      rw [if_neg hkq]
      exact oelse_none_right _
  · simp only [if_true]
    exact alookup_map_set d k q v hany

theorem dkeys_append {α : Type} (d e : List (String × α)) :
    dkeys (d ++ e) = dkeys d ++ dkeys e := by
  simp [dkeys]

theorem dkeys_map_set {α : Type} (d : List (String × α)) (k : String) (v : α) :
    dkeys (d.map (fun p => if p.1 = k then (k, v) else p)) = dkeys d := by
  induction d with
  | nil => rfl
  | cons p rest ih =>
    rw [List.map_cons, dkeys_cons, dkeys_cons]
    by_cases hp : p.1 = k
    · rw [if_pos hp, ih, hp]
    · rw [if_neg hp, ih]

theorem dkeys_setk_mem {α : Type} (d : List (String × α)) (k : String) (v : α)
    (h : d.any (fun p => p.1 = k) = true) : dkeys (setk d k v) = dkeys d := by
  unfold setk
  rw [if_pos h, dkeys_map_set]

theorem nodup_setk {α : Type} (d : List (String × α)) (k : String) (v : α)
    (h : (dkeys d).Nodup) : (dkeys (setk d k v)).Nodup := by
  rcases hany : d.any (fun p => p.1 = k) with _ | _
  · unfold setk
    rw [hany]
    simp only [Bool.false_eq_true, if_false, dkeys_append]
    rw [List.nodup_append]
    refine ⟨h, List.nodup_singleton k, ?_⟩
    intro a ha hb
    have hak : a = k := by simpa [dkeys] using hb
    subst hak
    have hsome : (alookup a d).isSome = true := (isSome_alookup_iff d a).mpr ha
    have hnone : alookup a d = Option.none := (alookup_none_iff d a).mpr hany
    rw [hnone] at hsome
    exact Bool.noConfusion hsome
  · rw [dkeys_setk_mem d k v hany]
    exact h

theorem alookup_updateAll {α : Type} (e d : List (String × α)) (q : String) :
    alookup q (updateAll d e) = oelse (alookup q e.reverse) (alookup q d) := by
  induction e generalizing d with
  | nil => rfl
  | cons p es ih =>
    have step : updateAll d (p :: es) = updateAll (setk d p.1 p.2) es := rfl
    rw [step, ih, List.reverse_cons, alookup_append, alookup_setk, alookup_cons]
    rcases alookup q es.reverse with _ | w
    · by_cases hc : p.1 = q
      · rw [if_pos hc, if_pos hc]
        rfl
      · rw [if_neg hc, if_neg hc]
        show alookup q d = oelse (alookup q []) (alookup q d)
        rfl
    · rfl

theorem alookup_reverse_nodup {α : Type} (d : List (String × α))
    (h : (dkeys d).Nodup) (q : String) : alookup q d.reverse = alookup q d := by
  induction d with
  | nil => rfl
  | cons p rest ih =>
    have hcons := List.nodup_cons.mp (by rw [← dkeys_cons]; exact h)
    have hd : p.1 ∉ dkeys rest := hcons.1
    have hr : (dkeys rest).Nodup := hcons.2
    rw [List.reverse_cons, alookup_append, ih hr, alookup_cons, alookup_cons]
    by_cases hpq : p.1 = q
    · have hnone : alookup q rest = Option.none := by
        rw [alookup_none_iff]
        rcases hany : rest.any (fun r => r.1 = q) with _ | _
        · rfl
        · exact absurd (by rw [mem_dkeys_iff_any, hpq]; exact hany) hd
      rw [if_pos hpq, if_pos hpq, hnone]
      rfl
    · rw [if_neg hpq, if_neg hpq]
      show oelse (alookup q rest) Option.none = alookup q rest
      exact oelse_none_right _

theorem nodup_fold_items {α : Type} (f : Tag → Option (String × α))
    (items : List Tag) (d : List (String × α)) (h : (dkeys d).Nodup) :
    (dkeys (foldInsert f items d)).Nodup := by
  induction items generalizing d with
  | nil => exact h
  | cons it rest ih =>
    have step : foldInsert f (it :: rest) d = foldInsert f rest (insOpt d (f it)) := rfl
    rw [step]
    rcases f it with _ | kv
    · exact ih d h
    · exact ih _ (nodup_setk d kv.1 kv.2 h)

/-! ### Extractor invariants -/

theorem nodup_parse_characteristics (t : Tag) :
    (dkeys (parse_characteristics t)).Nodup :=
  nodup_fold_items processCharItem (t.findAll charItemP) [] List.nodup_nil

theorem nodup_parse_nutrition (t : Tag) : (dkeys (parse_nutrition t)).Nodup := by
  rcases h : t.findTag (classP "div" "product-details-nutrition-facts__list") with _ | lc
  · simp only [parse_nutrition, h]
    exact List.nodup_nil
  · simp only [parse_nutrition, h]
    exact nodup_fold_items processNutItem _ [] List.nodup_nil

theorem nodup_parse_additional (t : Tag) : (dkeys (parse_additional_info t)).Nodup := by
  rcases h : t.findTag (classP "div" "marked-text") with _ | mt
  · simp only [parse_additional_info, h]
    exact List.nodup_singleton _
  · simp only [parse_additional_info, h]
    split <;> exact List.nodup_singleton _

theorem dkeys_offerInit : dkeys offerInit = offerKeys := rfl

theorem setk_keys_offer (d : PyDict) (k : String) (v : FieldValue)
    (hk : k ∈ offerKeys) (h : dkeys d = offerKeys) :
    dkeys (setk d k v) = offerKeys := by
  have hmem : k ∈ dkeys d := by rw [h]; exact hk
  rw [dkeys_setk_mem d k v ((mem_dkeys_iff_any d k).mp hmem), h]

theorem trySet_keys_offer (d : PyDict) (k : String) (v : Option FieldValue)
    (hk : k ∈ offerKeys) (h : dkeys d = offerKeys) :
    dkeys (trySet d k v) = offerKeys := by
  cases v
  · exact h
  · exact setk_keys_offer d k _ hk h

theorem ratingUpdate_keys (sec : Tag) (d : PyDict) (h : dkeys d = offerKeys) :
    dkeys (ratingUpdate sec d) = offerKeys := by
  simp only [ratingUpdate]
  repeat' split
  all_goals first
    | exact h
    | exact setk_keys_offer _ _ _ (by decide) h
    | exact setk_keys_offer _ _ _ (by decide)
        (setk_keys_offer _ _ _ (by decide)
          (setk_keys_offer _ _ _ (by decide) h))

theorem keys_parse_offer (sec : Tag) : dkeys (parse_offer sec) = offerKeys := by
  unfold parse_offer
  exact ratingUpdate_keys sec _
    (trySet_keys_offer _ _ _ (by decide)
      (trySet_keys_offer _ _ _ (by decide)
        (trySet_keys_offer _ _ _ (by decide)
          (trySet_keys_offer _ _ _ (by decide) dkeys_offerInit))))

theorem nodup_parse_offer (sec : Tag) : (dkeys (parse_offer sec)).Nodup := by
  rw [keys_parse_offer]
  decide

theorem alookup_trySet_ne (d : PyDict) (k : String) (v : Option FieldValue)
    (q : String) (h : k ≠ q) : alookup q (trySet d k v) = alookup q d := by
  cases v
  · rfl
  · show alookup q (setk d k _) = alookup q d
    rw [alookup_setk, if_neg h]

theorem alookup_ratingUpdate_ne (sec : Tag) (d : PyDict) (q : String)
    (h1 : ¬ ("Рейтинг" = q)) (h2 : ¬ ("Количество оценок" = q))
    (h3 : ¬ ("Количество отзывов" = q)) :
    alookup q (ratingUpdate sec d) = alookup q d := by
  simp only [ratingUpdate]
  repeat' split
  all_goals first
    | rfl
    | rw [alookup_setk, if_neg h1]
    | rw [alookup_setk, if_neg h3, alookup_setk, if_neg h2, alookup_setk, if_neg h1]

/-- Where the current price of `parse_offer` comes from: the price span's
text with currency, spaces and narrow no-break spaces stripped, parsed as a
real, and `None` when the span is missing or the parse fails. -/
theorem alookup_parse_offer_current (sec : Tag) :
    alookup "Текущая цена" (parse_offer sec) =
      some (((sec.findTag (classP "span" "product-details-price__current")).bind
        (fun t => (pyFloat? (stripPrice t.text)).map FieldValue.real)).getD
          FieldValue.none) := by
  unfold parse_offer
  rw [alookup_ratingUpdate_ne _ _ _ (by decide) (by decide) (by decide),
    alookup_trySet_ne _ _ _ _ (by decide), alookup_trySet_ne _ _ _ _ (by decide)]
  rcases he : (sec.findTag (classP "span" "product-details-price__current")).bind
      (fun t => (pyFloat? (stripPrice t.text)).map FieldValue.real) with _ | v
  · rw [show ∀ e : PyDict, trySet e "Текущая цена" Option.none = e from fun e => rfl,
      alookup_trySet_ne _ _ _ _ (by decide)]
    rfl
  · show alookup "Текущая цена" (setk _ "Текущая цена" v) = some v
    rw [alookup_setk, if_pos rfl]

/-- The lookup structure of the four-way merge: composition wins over
nutrition, which wins over offer, which wins over characteristics. -/
theorem alookup_parse_all (a b c d : Tag) (q : String) :
    alookup q (parse_all_sections [a, b, c, d]) =
      oelse (alookup q (parse_additional_info d))
        (oelse (alookup q (parse_nutrition c))
          (oelse (alookup q (parse_offer b))
            (alookup q (parse_characteristics a)))) := by
  show alookup q
      (updateAll (updateAll (updateAll (updateAll [] (parse_characteristics a))
        (parse_offer b)) (parse_nutrition c)) (parse_additional_info d)) = _
  rw [alookup_updateAll, alookup_updateAll, alookup_updateAll, alookup_updateAll,
    alookup_reverse_nodup _ (nodup_parse_additional d),
    alookup_reverse_nodup _ (nodup_parse_nutrition c),
    alookup_reverse_nodup _ (nodup_parse_offer b),
    alookup_reverse_nodup _ (nodup_parse_characteristics a)]
  have hnil : alookup q ([] : PyDict) = Option.none := rfl
  rw [hnil, oelse_none_right]

/-! ### The claims -/

/-- C1: the all-or-nothing section gate of `main`.  When any of the four
detail-section collections is empty the record holds exactly the two
caller-attached identity fields; when all four are non-empty, extraction
runs on the first subtree of each collection and the identity fields are
assigned into the merged record. -/
theorem c1_section_gate (det inf nutr sostav : List Tag) (link productId : String) :
    ((det = [] ∨ inf = [] ∨ nutr = [] ∨ sostav = []) →
      processRow det inf nutr sostav link productId =
        [("Ссылка", FieldValue.str link), ("Артикул", FieldValue.str productId)])
  ∧ (det ≠ [] → inf ≠ [] → nutr ≠ [] → sostav ≠ [] →
      processRow det inf nutr sostav link productId =
        setk (setk (parse_all_sections
            [det.headD emptyTag, inf.headD emptyTag,
             nutr.headD emptyTag, sostav.headD emptyTag])
          "Ссылка" (FieldValue.str link))
          "Артикул" (FieldValue.str productId)) := by
  constructor
  · intro h
    have hb : (!det.isEmpty && !inf.isEmpty && !nutr.isEmpty && !sostav.isEmpty) = false := by
      rcases h with h | h | h | h <;> subst h <;> simp
    simp only [processRow, hb, Bool.false_eq_true, if_false]
    rfl
  · intro h1 h2 h3 h4
    rcases det with _ | ⟨d0, dts⟩
    · exact absurd rfl h1
    rcases inf with _ | ⟨i0, its⟩
    · exact absurd rfl h2
    rcases nutr with _ | ⟨n0, nts⟩
    · exact absurd rfl h3
    rcases sostav with _ | ⟨s0, sts⟩
    · exact absurd rfl h4
    rfl

theorem c1_section_gate_witness :
    processRow [] [emptyTag] [emptyTag] [emptyTag] "L" "A" =
      [("Ссылка", FieldValue.str "L"), ("Артикул", FieldValue.str "A")]
  ∧ processRow [emptyTag] [emptyTag] [emptyTag] [emptyTag] "L" "A" =
      setk (setk (parse_all_sections [emptyTag, emptyTag, emptyTag, emptyTag])
        "Ссылка" (FieldValue.str "L")) "Артикул" (FieldValue.str "A") :=
  ⟨(c1_section_gate [] [emptyTag] [emptyTag] [emptyTag] "L" "A").1 (Or.inl rfl),
   (c1_section_gate [emptyTag] [emptyTag] [emptyTag] [emptyTag] "L" "A").2
     (List.cons_ne_nil emptyTag []) (List.cons_ne_nil emptyTag [])
     (List.cons_ne_nil emptyTag []) (List.cons_ne_nil emptyTag [])⟩

/-- C2: the assembled record is the four per-section mappings merged in the
order characteristics → offer → nutrition → composition with
later-merged-wins lookup; in particular a key carried by both the
characteristics and the offer mapping (and by neither later section)
resolves to the offer value. -/
theorem c2_merge_precedence (a b c d : Tag) (q : String) :
    (alookup q (parse_all_sections [a, b, c, d]) =
      oelse (alookup q (parse_additional_info d))
        (oelse (alookup q (parse_nutrition c))
          (oelse (alookup q (parse_offer b))
            (alookup q (parse_characteristics a)))))
  ∧ (∀ v, alookup q (parse_additional_info d) = Option.none →
      alookup q (parse_nutrition c) = Option.none →
      alookup q (parse_offer b) = some v →
      alookup q (parse_all_sections [a, b, c, d]) = some v) := by
  refine ⟨alookup_parse_all a b c d q, fun v h1 h2 h3 => ?_⟩
  rw [alookup_parse_all a b c d q, h1, h2, h3]
  rfl

theorem c2_merge_precedence_witness :
    alookup "Название"
      (parse_all_sections
        [sampleSection [sampleCharItem "Название" "Тест"], emptyTag, emptyTag, emptyTag]) =
      some FieldValue.none
  ∧ alookup "Название"
      (parse_characteristics (sampleSection [sampleCharItem "Название" "Тест"])) =
      some (FieldValue.str "Тест") :=
  ⟨(c2_merge_precedence (sampleSection [sampleCharItem "Название" "Тест"])
      emptyTag emptyTag emptyTag "Название").2 FieldValue.none
      (by decide) (by decide) (by decide),
   by decide⟩

/-- C10: `parse_offer` always returns exactly the seven fixed keys (with
`None` for unextracted fields), those keys are present in every assembled
record, and — when neither nutrition nor composition carries the key — the
merged value is exactly the offer value, so a same-named characteristics
key is overwritten even by an unextracted `None`. -/
theorem c10_offer_keys (a b c d : Tag) (q : String) :
    dkeys (parse_offer b) = offerKeys
  ∧ (q ∈ offerKeys → q ∈ dkeys (parse_all_sections [a, b, c, d]))
  ∧ (q ∈ offerKeys →
      alookup q (parse_nutrition c) = Option.none →
      alookup q (parse_additional_info d) = Option.none →
      alookup q (parse_all_sections [a, b, c, d]) = alookup q (parse_offer b)) := by
  refine ⟨keys_parse_offer b, fun hq => ?_, fun hq h2 h3 => ?_⟩
  · have hmem : q ∈ dkeys (parse_offer b) := by rw [keys_parse_offer]; exact hq
    have hsome : (alookup q (parse_offer b)).isSome = true :=
      (isSome_alookup_iff _ q).mpr hmem
    rcases ho : alookup q (parse_offer b) with _ | v
    · rw [ho] at hsome
      exact Bool.noConfusion hsome
    · rw [← isSome_alookup_iff, alookup_parse_all, ho]
      rcases alookup q (parse_additional_info d) with _ | w
      · rcases alookup q (parse_nutrition c) with _ | w2 <;> rfl
      · rfl
  · have hmem : q ∈ dkeys (parse_offer b) := by rw [keys_parse_offer]; exact hq
    rw [alookup_parse_all, h2, h3]
    rcases ho : alookup q (parse_offer b) with _ | v
    · exfalso
      have hsome := (isSome_alookup_iff (parse_offer b) q).mpr hmem
      rw [ho] at hsome
      exact Bool.noConfusion hsome
    · rfl

theorem c10_offer_keys_witness :
    "Рейтинг" ∈ dkeys (parse_all_sections [emptyTag, emptyTag, emptyTag, emptyTag])
  ∧ alookup "Рейтинг" (parse_all_sections [emptyTag, emptyTag, emptyTag, emptyTag]) =
      alookup "Рейтинг" (parse_offer emptyTag) :=
  ⟨(c10_offer_keys emptyTag emptyTag emptyTag emptyTag "Рейтинг").2.1 (by decide),
   (c10_offer_keys emptyTag emptyTag emptyTag emptyTag "Рейтинг").2.2
     (by decide) (by decide) (by decide)⟩

/-- C3: a concrete catalog card on which `extract_product_data` leaks an
exception to its caller — the link anchor exists but has no `href`
attribute, so `link_tag['href']` raises `KeyError`, which the surrounding
`except (AttributeError, TypeError)` clause does not catch.  By contrast a
card with no anchor at all is handled (the second conjunct). -/
theorem c3_extractor_keyerror :
    extract_product_dataE sampleCardNoHref = Except.error PyExc.keyError
  ∧ extract_product_dataE emptyTag = Except.ok productInit :=
  ⟨rfl, rfl⟩

/-- C5: the value of a characteristics item is chosen by the ordered
fallback chain brand → manufacturer → weight → meta value → primary span;
the first source present wins and later sources are not consulted. -/
theorem c5_fallback_chain (item : Tag) :
    (∀ b, item.findTag (itempropSpanP "brand") = some b →
      chosenValue item = pyStrip b.text)
  ∧ (item.findTag (itempropSpanP "brand") = Option.none →
      ∀ m, item.findTag (itempropSpanP "manufacturer") = some m →
        chosenValue item = pyStrip m.text)
  ∧ (item.findTag (itempropSpanP "brand") = Option.none →
      item.findTag (itempropSpanP "manufacturer") = Option.none →
      ∀ w, item.findTag (itempropSpanP "weight") = some w →
        chosenValue item = pyStrip w.text)
  ∧ (item.findTag (itempropSpanP "brand") = Option.none →
      item.findTag (itempropSpanP "manufacturer") = Option.none →
      item.findTag (itempropSpanP "weight") = Option.none →
      ∀ mv, item.findTag metaValueP = some mv →
        chosenValue item = pyStrip (mv.attrOr "content" ""))
  ∧ (item.findTag (itempropSpanP "brand") = Option.none →
      item.findTag (itempropSpanP "manufacturer") = Option.none →
      item.findTag (itempropSpanP "weight") = Option.none →
      item.findTag metaValueP = Option.none →
      ∀ vs, item.findTag (styledSpanP "--pl-text-primary") = some vs →
        chosenValue item = pyStrip vs.text) := by
  refine ⟨?_, ?_, ?_, ?_, ?_⟩
  · intro b hb
    simp only [chosenValue, hb]
  · intro h0 m hm
    simp only [chosenValue, h0, hm]
  · intro h0 h1 w hw
    simp only [chosenValue, h0, h1, hw]
  · intro h0 h1 h2 mv hmv
    simp only [chosenValue, h0, h1, h2, hmv]
  · intro h0 h1 h2 h3 vs hvs
    simp only [chosenValue, h0, h1, h2, h3, hvs]

theorem c5_fallback_chain_witness :
    chosenValue sampleBrandItem = "Milka" := by
  have h := (c5_fallback_chain sampleBrandItem).1
    (Tag.mk "span" [("itemprop", "brand")] "Milka" .nil) rfl
  rw [h]
  rfl

/-- C6: the keyword-driven numeric coercion — exactly when the lowered name
contains one of the four fixed keywords, commas become points and the value
is parsed as a real; a failed parse keeps the string; a shelf-life
characteristic with value `"12"` becomes the number 12 while a
keyword-free name keeps its string value. -/
theorem c6_keyword_coercion (name value : String) :
    (hasKeyword name = true → ∀ q, pyFloat? (pyReplace value ',' ".") = some q →
      coerceNumeric name value = FieldValue.real q)
  ∧ (hasKeyword name = true → pyFloat? (pyReplace value ',' ".") = Option.none →
      coerceNumeric name value = FieldValue.str value)
  ∧ (hasKeyword name = false → coerceNumeric name value = FieldValue.str value)
  ∧ coerceNumeric "Срок годности дней" "12" = FieldValue.real (mkRat 12 1)
  ∧ coerceNumeric "Вкусовая добавка" "Фундук" = FieldValue.str "Фундук"
  ∧ alookup "Срок годности дней"
      (parse_characteristics
        (sampleSection [sampleCharItem "Срок годности дней" "12"])) =
      some (FieldValue.real (mkRat 12 1)) := by
  refine ⟨?_, ?_, ?_, by decide, by decide, by decide⟩
  · intro hk q hq
    simp only [coerceNumeric, hk, if_true, hq]
  · intro hk hq
    simp only [coerceNumeric, hk, if_true, hq]
  · intro hk
    simp only [coerceNumeric, hk, Bool.false_eq_true, if_false]

theorem c6_keyword_coercion_witness :
    coerceNumeric "Вес кг" "1,5" = FieldValue.real (mkRat 15 10) :=
  (c6_keyword_coercion "Вес кг" "1,5").1 (by decide) (mkRat 15 10) (by decide)

/-- C8, counterexample: a characteristics item with the non-empty name
`"Вес кг"` and the non-empty value string `"0"` is coerced to the number 0,
which is falsy in Python, so `if name and value:` skips it — the claim that
every item with non-empty name and value is recorded fails here. -/
theorem c8_skip_counterexample :
    charName (sampleCharItem "Вес кг" "0") = some "Вес кг"
  ∧ chosenValue (sampleCharItem "Вес кг" "0") = "0"
  ∧ coerceNumeric "Вес кг" "0" = FieldValue.real 0
  ∧ processCharItem (sampleCharItem "Вес кг" "0") = Option.none
  ∧ parse_characteristics (sampleSection [sampleCharItem "Вес кг" "0"]) = [] := by
  refine ⟨by decide, by decide, by decide, by decide, by decide⟩

/-- C8, amended: an item with a name span is recorded under its
synonym-mapped name exactly when the mapped name is non-empty and the
coerced value is truthy (a non-empty string or a nonzero number); it is
skipped when the name is empty or the value is falsy (the empty string or
the number 0). -/
theorem c8_skip_amended (item : Tag) (nm : String) (h : charName item = some nm)
    (hItem : charItemP item = true) (hNest : item.findAll charItemP = []) :
    processCharItem item =
      (if nameMapping nm ≠ "" ∧ fvTruthy (coerceNumeric nm (chosenValue item))
       then some (nameMapping nm, coerceNumeric nm (chosenValue item))
       else Option.none)
  ∧ parse_characteristics (sampleSection [item]) =
      (if nameMapping nm ≠ "" ∧ fvTruthy (coerceNumeric nm (chosenValue item))
       then [(nameMapping nm, coerceNumeric nm (chosenValue item))]
       else []) := by
  have hproc : processCharItem item =
      (if nameMapping nm ≠ "" ∧ fvTruthy (coerceNumeric nm (chosenValue item))
       then some (nameMapping nm, coerceNumeric nm (chosenValue item))
       else Option.none) := by
    simp only [processCharItem, h]
  refine ⟨hproc, ?_⟩
  have hdesc : descTag (sampleSection [item]) = item :: descTag item := by
    show item :: (descTag item ++ descTags TagList.nil) = item :: descTag item
    rw [show descTags TagList.nil = [] from rfl, List.append_nil]
  have hfa : (sampleSection [item]).findAll charItemP = [item] := by
    show (descTag (sampleSection [item])).filter charItemP = [item]
    rw [hdesc, List.filter_cons, if_pos hItem,
      show List.filter charItemP (descTag item) = [] from hNest]
  have hstep : foldInsert processCharItem [item] [] =
      insOpt ([] : PyDict) (processCharItem item) := rfl
  unfold parse_characteristics
  rw [hfa, hstep, hproc]
  by_cases hc : nameMapping nm ≠ "" ∧ fvTruthy (coerceNumeric nm (chosenValue item))
  · rw [if_pos hc, if_pos hc]
    rfl
  · rw [if_neg hc, if_neg hc]
    rfl

theorem c8_skip_amended_witness :
    parse_characteristics (sampleSection [sampleCharItem "Тип продукта" "Плитка"]) =
      [("Тип", FieldValue.str "Плитка")] := by
  have h := (c8_skip_amended (sampleCharItem "Тип продукта" "Плитка") "Тип продукта"
    (by decide) (by decide) rfl).2
  rw [h]
  decide

/-- C9, counterexample: both price strings parse as real numbers (the sale
price parses to the number 0), the claimed formula yields a discount of
100, but the code's truthiness test `if old_price and new_price:` rejects
the parsed 0.0 and leaves the discount absent. -/
theorem c9_discount_counterexample :
    discountOf "100" "0" = Option.none
  ∧ clean_price "100" = some (mkRat 100 1)
  ∧ clean_price "0" = some 0
  ∧ pyRound ((1 - (0 : ℚ) / (100 : ℚ)) * 100) = 100 := by
  refine ⟨by decide, by decide, by decide, ?_⟩
  have h : (1 - (0 : ℚ) / (100 : ℚ)) * 100 = (100 : ℚ) := by norm_num
  rw [h]
  decide

/-- C9, amended: when both price strings parse as real numbers and both
parsed values are nonzero, the discount equals Python's (banker's) rounding
of `(1 - sale/regular) * 100`; when either string fails to parse the
discount stays absent (and, per the counterexample, a parsed zero also
leaves it absent). -/
theorem c9_discount_amended (r s : String) :
    (∀ o n, clean_price r = some o → clean_price s = some n → o ≠ 0 → n ≠ 0 →
      discountOf r s = some (pyRound ((1 - n / o) * 100)))
  ∧ (clean_price r = Option.none → discountOf r s = Option.none)
  ∧ (clean_price s = Option.none → discountOf r s = Option.none) := by
  have hemp : clean_price "" = Option.none := rfl
  refine ⟨fun o n ho hn ho0 hn0 => ?_, fun h => ?_, fun h => ?_⟩
  · have hr : r ≠ "" := fun he => by rw [he, hemp] at ho; exact Option.noConfusion ho
    have hs : s ≠ "" := fun he => by rw [he, hemp] at hn; exact Option.noConfusion hn
    unfold discountOf
    rw [if_pos ⟨hr, hs⟩, ho, hn]
    show (if o ≠ 0 ∧ n ≠ 0 then some (pyRound ((1 - n / o) * 100))
          else Option.none) = _
    rw [if_pos ⟨ho0, hn0⟩]
  · by_cases hr : r = ""
    · unfold discountOf
      rw [if_neg (fun hc => hc.1 hr)]
    · by_cases hs : s = ""
      · unfold discountOf
        rw [if_neg (fun hc => hc.2 hs)]
      · unfold discountOf
        rw [if_pos ⟨hr, hs⟩, h]
  · by_cases hr : r = ""
    · unfold discountOf
      rw [if_neg (fun hc => hc.1 hr)]
    · by_cases hs : s = ""
      · unfold discountOf
        rw [if_neg (fun hc => hc.2 hs)]
      · unfold discountOf
        rw [if_pos ⟨hr, hs⟩, h]
        rcases clean_price r with _ | o <;> rfl

theorem c9_discount_amended_witness :
    discountOf "100" "85" = some 15 := by
  have h := (c9_discount_amended "100" "85").1 (mkRat 100 1) (mkRat 85 1)
    (by decide) (by decide) (by decide) (by decide)
  rw [h]
  have he : (1 - (mkRat 85 1 : ℚ) / (mkRat 100 1)) * 100 = (15 : ℚ) := by
    rw [Rat.mkRat_one, Rat.mkRat_one]
    norm_num
  rw [he]
  decide

/-- A string of one or more dots has no digit before the point and no
digit-only fraction, so CPython's float parser rejects it. -/
theorem pyFloatMag_dots (t : List Char) (ht : ∀ x ∈ t, x = '.') :
    pyFloatMag ('.' :: t) = Option.none := by
  rcases t with _ | ⟨x, xs⟩
  · rfl
  · rw [ht x (List.mem_cons_self x xs)]
    rfl

/-- C4, counterexample: a price string carrying both a narrow no-break
space and a comma decimal separator is rejected by both price paths — the
correct value would be 1234.5, but `clean_price` (which does not strip the
no-break space) returns `None`, and `parse_offer` (which does not map the
comma to a point) leaves the field at `None`. -/
theorem c4_price_counterexample :
    clean_price "1\u202F234,50 ₽" = Option.none
  ∧ alookup "Текущая цена" (parse_offer (sampleOfferSec "1\u202F234,50 ₽")) =
      some FieldValue.none
  ∧ pyFloat? "1234.50" = some (mkRat 24690 20) := by
  refine ⟨by decide, by decide, by decide⟩

/-- C4, amended: `parse_offer` strips the currency sign, spaces and narrow
no-break spaces from the current-price text and parses the remainder as a
real, leaving `None` on failure; `clean_price` strips spaces and the
currency sign and maps the comma to a point, returning `None` (never an
exception) on failure; a price with ASCII-space grouping and a comma
decimal parses via `clean_price`, and one with narrow no-break spaces and a
point decimal parses via `parse_offer`. -/
theorem c4_price_amended (s : String) (sec : Tag) :
    (alookup "Текущая цена" (parse_offer sec) =
      some (((sec.findTag (classP "span" "product-details-price__current")).bind
        (fun t => (pyFloat? (stripPrice t.text)).map FieldValue.real)).getD
          FieldValue.none))
  ∧ clean_priceE s = Except.ok (clean_price s)
  ∧ clean_price "1 234,50 ₽" = some (mkRat 24690 20)
  ∧ stripPrice "1\u202F234.5 ₽" = "1234.5"
  ∧ alookup "Текущая цена" (parse_offer (sampleOfferSec "1\u202F234.5 ₽")) =
      some (FieldValue.real (mkRat 12345 10)) := by
  refine ⟨alookup_parse_offer_current sec, ?_, by decide, by decide, by decide⟩
  unfold clean_priceE clean_price floatE
  rcases pyFloat? (pyReplace (pyReplace (pyReplace s ' ' "") '₽' "") ',' ".") with _ | q
  · rfl
  · rfl

/-- C7: nutrition value coercion — the text is filtered to digits and the
point; a value with no digit is skipped; with a point the filtered string
is parsed as a real (so the recorded value is real exactly when a point is
present), otherwise as an integer; `"5.4 g"` gives the real 5.4 and
`"120 kcal"` the integer 120. -/
theorem c7_nutrition_typing (v : String) :
    (v.data.any Char.isDigit = false → nutValue v = Option.none)
  ∧ (∀ q, (nutClean v).contains '.' = true →
      pyFloat? (String.mk (nutClean v)) = some q →
      nutValue v = some (FieldValue.real q))
  ∧ ((nutClean v).isEmpty = false → (nutClean v).contains '.' = false →
      nutValue v = some (FieldValue.int (digitsVal (nutClean v))))
  ∧ nutValue "5.4 g" = some (FieldValue.real (mkRat 27 5))
  ∧ nutValue "120 kcal" = some (FieldValue.int 120) := by
  refine ⟨?_, ?_, ?_, by decide, by decide⟩
  · intro h
    have hdots : ∀ x ∈ nutClean v, x = '.' := by
      intro c hc
      have hmf := List.mem_filter.mp hc
      have hnd : c.isDigit = false := by
        rcases hd : c.isDigit with _ | _
        · rfl
        · exact absurd (List.any_eq_true.mpr ⟨c, hmf.1, hd⟩)
            (by rw [h]; exact Bool.false_ne_true)
      have h2 := hmf.2
      rw [hnd] at h2
      simpa using h2
    rcases hcv : nutClean v with _ | ⟨c, t⟩
    · simp [nutValue, hcv]
    · have hc : c = '.' := hdots c (by rw [hcv]; exact List.mem_cons_self c t)
      subst hc
      have ht : ∀ x ∈ t, x = '.' := fun x hx =>
        hdots x (by rw [hcv]; exact List.mem_cons_of_mem _ hx)
      have hnw : ∀ x ∈ ('.' :: t), isPyWs x = false := by
        intro x hx
        rcases List.mem_cons.mp hx with he | hm
        · rw [he]
          rfl
        · rw [ht x hm]
          rfl
      have hdw : ∀ (l : List Char), (∀ x ∈ l, isPyWs x = false) →
          l.dropWhile isPyWs = l := by
        intro l hl
        rcases l with _ | ⟨a, r⟩
        · rfl
        · rw [List.dropWhile_cons, hl a (List.mem_cons_self a r)]
          simp
      have hstrip : (pyStrip (String.mk ('.' :: t))).data = '.' :: t := by
        show ((('.' :: t).dropWhile isPyWs).reverse.dropWhile isPyWs).reverse = '.' :: t
        rw [hdw _ hnw, hdw _ (fun x hx => hnw x (List.mem_reverse.mp hx))]
        exact List.reverse_reverse _
      have hpf : pyFloat? (String.mk ('.' :: t)) = Option.none := by
        unfold pyFloat?
        rw [hstrip]
        show pyFloatMag ('.' :: t) = Option.none
        exact pyFloatMag_dots t ht
      simp [nutValue, hcv, hpf]
  · intro q hdot hq
    have hne : (nutClean v).isEmpty = false := by
      rcases hcv : nutClean v with _ | ⟨c, t⟩
      · rw [hcv] at hdot
        exact absurd hdot Bool.false_ne_true
      · rfl
    have hmem : '.' ∈ nutClean v := by simpa using hdot
    simp [nutValue, hne, hmem, hq]
  · intro hne hdot
    have hnm : '.' ∉ nutClean v := by simpa using hdot
    simp [nutValue, hne, hnm]

theorem c7_nutrition_typing_witness :
    nutValue "нет" = Option.none
  ∧ nutValue "5.4 g" = some (FieldValue.real (mkRat 27 5))
  ∧ nutValue "120 kcal" = some (FieldValue.int (digitsVal (nutClean "120 kcal"))) :=
  ⟨(c7_nutrition_typing "нет").1 (by decide),
   (c7_nutrition_typing "5.4 g").2.1 (mkRat 27 5) (by decide) (by decide),
   (c7_nutrition_typing "120 kcal").2.2.1 (by decide) (by decide)⟩
